import Mathlib

/-!
Shallow embedding of the contact-assistant program (`main.py`): validated
fields (Name, Phone, Birthday), Record phone operations, AddressBook
operations, and the upcoming-birthday scan with its weekend-adjustment
policy.

Dates: Python `datetime.date` objects are represented in two equivalent
views, mirroring how the source uses them.  Where the source only needs
`date.weekday()` and `date + timedelta(days=n)` (the `find_next_weekday`
and `adjust_for_weekend` helpers), a date is its proleptic-Gregorian
ordinal (`date.toordinal()`), an integer, with `weekday = (ordinal + 6) % 7`
(ordinal 1 is 0001-01-01, a Monday, weekday 0).  Where the source needs
`date.replace(year=...)` and field-wise comparison, a date is a
year/month/day triple `DDate`, with `toOrdinal` computing the same ordinal
by the standard civil-calendar formula used by CPython's `datetime`
(`_days_before_year` / `_days_before_month`).
-/

/-- A calendar date as a year/month/day triple, the structural view of a
Python `datetime.date`. -/
structure DDate where
  year : Nat
  month : Nat
  day : Nat
deriving DecidableEq, Repr

/-- Gregorian leap-year test, as in CPython `datetime._is_leap`. -/
def isLeap (y : Nat) : Bool :=
  (y % 4 == 0 && y % 100 != 0) || y % 400 == 0

/-- Number of days in month `m` of year `y` (CPython `_days_in_month`);
0 for months out of range 1..12. -/
def daysInMonth (y m : Nat) : Nat :=
  match m with
  | 1 => 31
  | 2 => if isLeap y then 29 else 28
  | 3 => 31
  | 4 => 30
  | 5 => 31
  | 6 => 30
  | 7 => 31
  | 8 => 31
  | 9 => 30
  | 10 => 31
  | 11 => 30
  | 12 => 31
  | _ => 0

/-- The validity check `datetime.date(y, m, d)` performs at construction
(also run by `date.replace`): year in 1..9999, month in 1..12, day in
1..days-in-month. -/
def isValidDate (y m d : Nat) : Bool :=
  1 ≤ y && y ≤ 9999 && 1 ≤ m && m ≤ 12 && 1 ≤ d && d ≤ daysInMonth y m

/-- Days before January 1st of year `y` (CPython `_days_before_year`). -/
def daysBeforeYear (y : Nat) : Nat :=
  365 * (y - 1) + (y - 1) / 4 - (y - 1) / 100 + (y - 1) / 400

/-- Days in year `y` preceding month `m` (CPython `_days_before_month`). -/
def daysBeforeMonth (y m : Nat) : Nat :=
  (match m with
   | 1 => 0
   | 2 => 31
   | 3 => 59
   | 4 => 90
   | 5 => 120
   | 6 => 151
   | 7 => 181
   | 8 => 212
   | 9 => 243
   | 10 => 273
   | 11 => 304
   | 12 => 334
   | _ => 0) + (if 2 < m && isLeap y then 1 else 0)

/-- `date.toordinal()`: days since 0000-12-31 in the proleptic Gregorian
calendar (0001-01-01 is ordinal 1). -/
def toOrdinal (d : DDate) : Nat :=
  daysBeforeYear d.year + daysBeforeMonth d.year d.month + d.day

/-- Python `date` comparison (`date.__lt__` compares the
(year, month, day) triples lexicographically). -/
def dateLt (a b : DDate) : Prop :=
  a.year < b.year ∨
    (a.year = b.year ∧
      (a.month < b.month ∨ (a.month = b.month ∧ a.day < b.day)))

instance (a b : DDate) : Decidable (dateLt a b) := by
  unfold dateLt; exact inferInstance

/-- `date.weekday()` expressed on ordinals: Monday is 0, Sunday is 6. -/
def pyWeekday (d : Int) : Int :=
  (d + 6) % 7

/-- `find_next_weekday(start_date, weekday)` from `main.py`, on ordinal
dates (`start_date + timedelta(days=n)` is ordinal addition). -/
def find_next_weekday (start_date weekday : Int) : Int :=
  let days_ahead := weekday - pyWeekday start_date
  if days_ahead ≤ 0 then start_date + (days_ahead + 7)
  else start_date + days_ahead

/-- `adjust_for_weekend(birthday)` from `main.py`: move Saturday (5) and
Sunday (6) to the next Monday (0). -/
def adjust_for_weekend (birthday : Int) : Int :=
  if pyWeekday birthday ≥ 5 then find_next_weekday birthday 0
  else birthday

/-! ## Field validation -/

/-- The two error kinds the `get_phone` validator can raise:
`LengthPhoneNumberError` and `NotNumberError` from `main.py`. -/
inductive PhoneErr where
  | lengthError
  | notNumber
deriving DecidableEq, Repr

/-- The `get_phone` decorator guarding `Phone.__init__` (and the phone
methods of `Record`): raise `LengthPhoneNumberError` when the length is
not 10, then `NotNumberError` unless every character is a digit
(`re.fullmatch` of one-or-more digits); otherwise the `Phone` stores the
string unchanged (so its `str` form is the input). -/
def makePhone (phone : String) : Except PhoneErr String :=
  if phone.length ≠ 10 then .error .lengthError
  else if ¬ (phone.data.all Char.isDigit) then .error .notNumber
  else .ok phone

/-! ## Records and phone editing -/

/-- A `Record`: validated name string, list of validated phone strings
(each `Phone` just wraps its string value), optional parsed birthday. -/
structure PRecord where
  name : String
  phones : List String
  birthday : Option DDate
deriving DecidableEq, Repr

/-- `Record.check_phone_is_found`: index of the first stored phone whose
value equals `number`; `none` models the `ValueError` raised when no
phone matches. -/
def check_phone_is_found (phones : List String) (number : String) : Option Nat :=
  phones.findIdx? (fun v => v = number)

/-- Error kinds escaping `Record.edit_phone`: the `KeyError` re-raised on
lookup failure, or a phone-validation error propagating uncaught from
`Phone(new_phone)` (those are not `ValueError` subclasses, so the
`except ValueError` clause does not convert them). -/
inductive EditErr where
  | keyError
  | validation (e : PhoneErr)
deriving DecidableEq, Repr

/-- `Record.edit_phone([old_phone, new_phone])`: find `old_phone` (lookup
failure becomes `KeyError`), then build `Phone(new_phone)` (validation
errors propagate as such) and overwrite the found slot, returning the
success message. -/
def edit_phone (r : PRecord) (old_phone new_phone : String) :
    Except EditErr (PRecord × String) :=
  match check_phone_is_found r.phones old_phone with
  | none => .error .keyError
  | some index =>
    match makePhone new_phone with
    | .error e => .error (.validation e)
    | .ok p => .ok ({ r with phones := r.phones.set index p },
                    "Contact was changed successfully")

/-! ## AddressBook -/

/-- An `AddressBook`'s `data` dict: an insertion-ordered association list
from name strings to records (book states built by the program keep keys
unique, as a dict does). -/
abbrev Book := List (String × PRecord)

/-- `AddressBook.find` / `self.data[name]` lookup. -/
def bookFind (book : Book) (name : String) : Option PRecord :=
  match book with
  | [] => none
  | (k, r) :: rest => if k = name then some r else bookFind rest name

/-- `AddressBook.add_record`: `self.data[contact.name.value] = contact` —
overwrite in place when the key exists, else append at the end
(dict insertion-order semantics). -/
def add_record (book : Book) (contact : PRecord) : Book :=
  match book with
  | [] => [(contact.name, contact)]
  | (k, r) :: rest =>
    if k = contact.name then (k, contact) :: rest
    else (k, r) :: add_record rest contact

/-- `dict.pop(name)` with no default: remove the entry with key `name`,
or `none` for the `KeyError` when the key is absent. -/
def popKey (book : Book) (name : String) : Option Book :=
  match book with
  | [] => none
  | (k, r) :: rest =>
    if k = name then some rest
    else (popKey rest name).map (fun b => (k, r) :: b)

/-- `AddressBook.delete(name)`: `self.data.pop(name)` raises `KeyError`
when absent; otherwise returns the confirmation string. -/
def delete (book : Book) (name : String) : Except Unit (Book × String) :=
  match popKey book name with
  | none => .error ()
  | some rest => .ok (rest, "Contact " ++ name ++ " was deleted!")

/-! ## The upcoming-birthday scan -/

/-- Lines 157-159 of `main.py`: `record.birthday.value.replace(year=...)`.
`date.replace` re-runs the `date` constructor's validity check, so it
fails (`ValueError`) when the month/day does not exist in the target
year — February 29 in a non-leap year. -/
def replaceYear (b : DDate) (y : Nat) : Option DDate :=
  if isValidDate y b.month b.day then some ⟨y, b.month, b.day⟩ else none

/-- The year-resolution step of the scan: this year's occurrence of the
birthday, or next year's when this year's is strictly before `today`;
`Except.error` models the `ValueError` escaping from `date.replace`. -/
def resolveOccurrence (b today : DDate) : Except Unit DDate :=
  match replaceYear b today.year with
  | none => .error ()
  | some birthday_this_year =>
    if dateLt birthday_this_year today then
      match replaceYear b (today.year + 1) with
      | none => .error ()
      | some next => .ok next
    else .ok birthday_this_year

/-- `AddressBook.get_upcoming_birthdays` as the finite sequence the
generator produces (each yielded item as the record's name paired with
the reported date's ordinal; `Except.error` models an exception raised
while iterating).  The `return None` statement sits inside the `for`
body, so after processing the first record the generator stops: later
records are never examined, and an empty `data` yields nothing. -/
def get_upcoming_birthdays (today : DDate) (book : Book) :
    Except Unit (List (String × Int)) :=
  match book with
  | [] => .ok []
  | (_, record) :: _ =>
    match record.birthday with
    | none => .ok []
    | some b =>
      match resolveOccurrence b today with
      | .error e => .error e
      | .ok birthday_this_year =>
        if 0 ≤ (toOrdinal birthday_this_year : Int) - (toOrdinal today : Int) ∧
            (toOrdinal birthday_this_year : Int) - (toOrdinal today : Int) ≤ 7 then
          .ok [(record.name,
                adjust_for_weekend (toOrdinal birthday_this_year))]
        else .ok []

/-- Number of items a scan result carries (0 for an error). -/
def resultLen (r : Except Unit (List (String × Int))) : Nat :=
  match r with
  | .ok l => l.length
  | .error _ => 0

/-! ## Birthday parsing (`Birthday.__init__` via `datetime.strptime`) -/

/-- Numeric value of a list of decimal digit characters. -/
def natOfDigits (cs : List Char) : Nat :=
  cs.foldl (fun a c => a * 10 + (c.toNat - 48)) 0

/-- `Birthday.__init__`: `datetime.strptime(value, "%d.%m.%Y").date()`,
with any `ValueError` re-raised as the single date-format error (`none`).
`strptime` compiles the format to a regular expression matched against
the whole string: a day field of one or two digits with value 1..31
(CPython documents the leading zero as optional for `%d`), a literal
dot, a month field of one or two digits with value 1..12, a literal dot,
and a year field of exactly four digits with nothing left over.  Since
the fields are all-digit and the separator is not a digit, each field is
the maximal digit run at its position.  The parsed numbers then pass
through the `date` constructor, whose calendar-validity check may still
raise (e.g. 31.02.2024). -/
def parseBirthday (s : String) : Option DDate :=
  match s.data.dropWhile Char.isDigit with
  | c1 :: r2 =>
    if c1 = '.' then
      match r2.dropWhile Char.isDigit with
      | c2 :: r4 =>
        if c2 = '.' then
          let dTok := s.data.takeWhile Char.isDigit
          let mTok := r2.takeWhile Char.isDigit
          let yTok := r4.takeWhile Char.isDigit
          if r4.dropWhile Char.isDigit = [] ∧
              1 ≤ dTok.length ∧ dTok.length ≤ 2 ∧
              1 ≤ natOfDigits dTok ∧ natOfDigits dTok ≤ 31 ∧
              1 ≤ mTok.length ∧ mTok.length ≤ 2 ∧
              1 ≤ natOfDigits mTok ∧ natOfDigits mTok ≤ 12 ∧
              yTok.length = 4 ∧
              isValidDate (natOfDigits yTok) (natOfDigits mTok) (natOfDigits dTok) = true
          then some ⟨natOfDigits yTok, natOfDigits mTok, natOfDigits dTok⟩
          else none
        else none
      | [] => none
    else none
  | [] => none

/-! ## Book operation sequences (for the key invariant) -/

/-- The `AddressBook` mutations the program performs. -/
inductive BookOp where
  | add (r : PRecord)
  | del (name : String)

/-- Apply one operation; a failing `delete` raises and leaves the dict
unchanged. -/
def applyOp (book : Book) (op : BookOp) : Book :=
  match op with
  | .add r => add_record book r
  | .del n =>
    match delete book n with
    | .ok (b, _) => b
    | .error _ => book

/-- The book reached from the empty book by a sequence of operations. -/
def runOps (ops : List BookOp) : Book :=
  ops.foldl applyOp []

/-- The spec's AddressBook invariant: every stored record's name equals
its key. -/
def keyInv (book : Book) : Prop :=
  ∀ kv ∈ book, kv.2.name = kv.1

/-! ## Theorems -/

/-- C6: for every start date `d` and target weekday `w` (a Python weekday,
0..6), `find_next_weekday d w` is strictly after `d`, has weekday `w`,
and equals `d + 7` when `w` is already `d`'s weekday. -/
theorem find_next_weekday_spec (d w : Int) (h0 : 0 ≤ w) (h7 : w < 7) :
    d < find_next_weekday d w ∧
    pyWeekday (find_next_weekday d w) = w ∧
    (pyWeekday d = w → find_next_weekday d w = d + 7) := by
  simp only [find_next_weekday, pyWeekday]
  split_ifs with h <;> refine ⟨by omega, by omega, fun hw => by omega⟩

/-- Witness for `find_next_weekday_spec` at `d = 10`, `w = 2`. -/
theorem find_next_weekday_spec_witness :
    (0 : Int) ≤ 2 ∧ (2 : Int) < 7 ∧
    (10 < find_next_weekday 10 2 ∧ pyWeekday (find_next_weekday 10 2) = 2 ∧
      (pyWeekday 10 = 2 → find_next_weekday 10 2 = 10 + 7)) :=
  ⟨by decide, by decide, find_next_weekday_spec 10 2 (by decide) (by decide)⟩

/-- C7: `adjust_for_weekend` keeps Monday-Friday dates unchanged, sends a
Saturday/Sunday date to the following Monday (`d + (7 - weekday)`, a
strictly later date of weekday 0), is idempotent, and never returns a
Saturday or Sunday. -/
theorem adjust_for_weekend_spec (d : Int) :
    (pyWeekday d < 5 → adjust_for_weekend d = d) ∧
    (5 ≤ pyWeekday d →
      adjust_for_weekend d = d + (7 - pyWeekday d) ∧
      pyWeekday (adjust_for_weekend d) = 0 ∧ d < adjust_for_weekend d) ∧
    adjust_for_weekend (adjust_for_weekend d) = adjust_for_weekend d ∧
    pyWeekday (adjust_for_weekend d) ≠ 5 ∧ pyWeekday (adjust_for_weekend d) ≠ 6 := by
  simp only [adjust_for_weekend, find_next_weekday, pyWeekday]
  split_ifs <;>
    refine ⟨fun h1 => by omega, fun h2 => ⟨by omega, by omega, by omega⟩,
      by omega, by omega, by omega⟩

/-- Witness for `adjust_for_weekend_spec`: ordinal 6 (a Saturday) moves
to ordinal 8 (the following Monday); ordinal 3 (a Wednesday) is kept. -/
theorem adjust_for_weekend_spec_witness :
    adjust_for_weekend 6 = 8 ∧ adjust_for_weekend 3 = 3 := by
  constructor
  · rw [((adjust_for_weekend_spec 6).2.1 (by decide)).1]; decide
  · exact (adjust_for_weekend_spec 3).1 (by decide)

/-- Reduction of the scan on a non-empty book (the `for` loop's single
executed iteration). -/
theorem get_upcoming_birthdays_cons (today : DDate) (k : String)
    (r : PRecord) (rest : Book) :
    get_upcoming_birthdays today ((k, r) :: rest) =
      (match r.birthday with
       | none => .ok []
       | some b =>
         match resolveOccurrence b today with
         | .error e => .error e
         | .ok bty =>
           if 0 ≤ (toOrdinal bty : Int) - (toOrdinal today : Int) ∧
               (toOrdinal bty : Int) - (toOrdinal today : Int) ≤ 7 then
             .ok [(r.name, adjust_for_weekend (toOrdinal bty))]
           else .ok []) := rfl

/-- Reduction of the scan when the first record has a birthday. -/
theorem get_upcoming_birthdays_cons_some (today : DDate) (k : String)
    (r : PRecord) (rest : Book) (b : DDate) (hb : r.birthday = some b) :
    get_upcoming_birthdays today ((k, r) :: rest) =
      (match resolveOccurrence b today with
       | .error e => .error e
       | .ok bty =>
         if 0 ≤ (toOrdinal bty : Int) - (toOrdinal today : Int) ∧
             (toOrdinal bty : Int) - (toOrdinal today : Int) ≤ 7 then
           .ok [(r.name, adjust_for_weekend (toOrdinal bty))]
         else .ok []) := by
  rw [get_upcoming_birthdays_cons, hb]

/-- C1: the scan inspects only the first record — the result depends only
on `book.take 1` — and carries at most one yielded item. -/
theorem upcoming_scan_first_record_only (today : DDate) (book : Book) :
    resultLen (get_upcoming_birthdays today book) ≤ 1 ∧
    get_upcoming_birthdays today book = get_upcoming_birthdays today (book.take 1) := by
  obtain (_ | ⟨⟨k, r⟩, rest⟩) := book
  · exact ⟨by simp [get_upcoming_birthdays, resultLen], rfl⟩
  · refine ⟨?_, rfl⟩
    rcases hb : r.birthday with _ | b
    · rw [get_upcoming_birthdays_cons, hb]
      simp [resultLen]
    · rw [get_upcoming_birthdays_cons_some today k r rest b hb]
      rcases hro : resolveOccurrence b today with e | bty
      · simp [resultLen]
      · simp only []
        split <;> simp [resultLen]

/-- What a successful year-resolution step returns: the birthday's month
and day, placed in this year when this year's occurrence is not strictly
before today, else in next year. -/
theorem resolveOccurrence_ok (b today bty : DDate)
    (hr : resolveOccurrence b today = .ok bty) :
    bty.month = b.month ∧ bty.day = b.day ∧
    ((¬ dateLt ⟨today.year, b.month, b.day⟩ today ∧ bty.year = today.year) ∨
      (dateLt ⟨today.year, b.month, b.day⟩ today ∧ bty.year = today.year + 1)) := by
  unfold resolveOccurrence replaceYear at hr
  by_cases h1 : isValidDate today.year b.month b.day = true
  · rw [if_pos h1] at hr
    simp only at hr
    by_cases h2 : dateLt ⟨today.year, b.month, b.day⟩ today
    · rw [if_pos h2] at hr
      by_cases h3 : isValidDate (today.year + 1) b.month b.day = true
      · rw [if_pos h3] at hr
        simp only [Except.ok.injEq] at hr
        subst hr
        exact ⟨rfl, rfl, Or.inr ⟨h2, rfl⟩⟩
      · rw [if_neg h3] at hr
        cases hr
    · rw [if_neg h2] at hr
      simp only [Except.ok.injEq] at hr
      subst hr
      exact ⟨rfl, rfl, Or.inl ⟨h2, rfl⟩⟩
  · rw [if_neg h1] at hr
    cases hr

/-- C2: for the (single) record the scan considers, with a birthday whose
year-resolution succeeds, the scan yields exactly when the day-difference
of the unadjusted occurrence from today lies in [0, 7], reports the
weekend-adjusted occurrence, and the occurrence is this year's (or next
year's when this year's is strictly before today).  The inclusion test
uses the unadjusted date, so a weekend date outside the window is never
pulled in by the adjustment. -/
theorem upcoming_window_and_adjust_order
    (today : DDate) (k : String) (r : PRecord) (rest : Book) (b bty : DDate)
    (hb : r.birthday = some b)
    (hr : resolveOccurrence b today = .ok bty) :
    get_upcoming_birthdays today ((k, r) :: rest) =
      (if 0 ≤ (toOrdinal bty : Int) - (toOrdinal today : Int) ∧
          (toOrdinal bty : Int) - (toOrdinal today : Int) ≤ 7 then
        .ok [(r.name, adjust_for_weekend (toOrdinal bty))]
      else .ok []) ∧
    bty.month = b.month ∧ bty.day = b.day ∧
    ((¬ dateLt ⟨today.year, b.month, b.day⟩ today ∧ bty.year = today.year) ∨
      (dateLt ⟨today.year, b.month, b.day⟩ today ∧ bty.year = today.year + 1)) := by
  refine ⟨?_, resolveOccurrence_ok b today bty hr⟩
  rw [get_upcoming_birthdays_cons_some today k r rest b hb, hr]

/-- Witness for `upcoming_window_and_adjust_order`: today 2024-06-10
(a Monday), one record with birthday 15.06.1990; its 2024 occurrence
(Saturday 2024-06-15, 5 days ahead) is yielded, weekend-adjusted. -/
theorem upcoming_window_and_adjust_order_witness :
    get_upcoming_birthdays ⟨2024, 6, 10⟩
        [("Anna", ⟨"Anna", [], some ⟨1990, 6, 15⟩⟩)] =
      .ok [("Anna", adjust_for_weekend (toOrdinal ⟨2024, 6, 15⟩))] := by
  have h := (upcoming_window_and_adjust_order ⟨2024, 6, 10⟩ "Anna"
    ⟨"Anna", [], some ⟨1990, 6, 15⟩⟩ [] ⟨1990, 6, 15⟩ ⟨2024, 6, 15⟩ rfl rfl).1
  have hc : 0 ≤ (toOrdinal ⟨2024, 6, 15⟩ : Int) - (toOrdinal ⟨2024, 6, 10⟩ : Int) ∧
      (toOrdinal ⟨2024, 6, 15⟩ : Int) - (toOrdinal ⟨2024, 6, 10⟩ : Int) ≤ 7 := by
    decide
  rw [h, if_pos hc]

/-- C10: when the first record the scan considers stores a February 29
birthday and today's year is not a leap year, `date.replace` raises and
the whole scan errors instead of yielding or skipping. -/
theorem feb29_scan_raises (today : DDate) (k : String) (r : PRecord)
    (rest : Book) (y : Nat)
    (hb : r.birthday = some ⟨y, 2, 29⟩) (hl : isLeap today.year = false) :
    get_upcoming_birthdays today ((k, r) :: rest) = .error () := by
  have hv : isValidDate today.year 2 29 = false := by
    simp [isValidDate, daysInMonth, hl]
  have hro : resolveOccurrence ⟨y, 2, 29⟩ today = .error () := by
    unfold resolveOccurrence replaceYear
    simp [hv]
  rw [get_upcoming_birthdays_cons_some today k r rest ⟨y, 2, 29⟩ hb, hro]

/-- Witness for `feb29_scan_raises`: birthday 29.02.2024 scanned with
today = 2025-01-01 (2025 is not a leap year). -/
theorem feb29_scan_raises_witness :
    get_upcoming_birthdays ⟨2025, 1, 1⟩
        [("Leap", ⟨"Leap", [], some ⟨2024, 2, 29⟩⟩)] = .error () :=
  feb29_scan_raises ⟨2025, 1, 1⟩ "Leap" ⟨"Leap", [], some ⟨2024, 2, 29⟩⟩ [] 2024
    rfl rfl

/-- C4: phone validation raises the length error whenever the length is
not 10 (regardless of content, so it takes precedence), raises the
not-digits error when the length is 10 but a non-digit is present, and
accepts every 10-character all-digit string, storing it unchanged. -/
theorem phone_validation_cases (s : String) :
    (s.length ≠ 10 → makePhone s = .error .lengthError) ∧
    (s.length = 10 → s.data.all Char.isDigit = false →
      makePhone s = .error .notNumber) ∧
    (s.length = 10 → s.data.all Char.isDigit = true → makePhone s = .ok s) := by
  refine ⟨fun h => ?_, fun h hd => ?_, fun h hd => ?_⟩
  · simp [makePhone, h]
  · simp [makePhone, h, hd]
  · simp [makePhone, h, hd]

/-- Witness for `phone_validation_cases` on "0123456789", "123" and
"12345abcde". -/
theorem phone_validation_cases_witness :
    makePhone "0123456789" = .ok "0123456789" ∧
    makePhone "123" = .error .lengthError ∧
    makePhone "12345abcde" = .error .notNumber :=
  ⟨(phone_validation_cases "0123456789").2.2 (by decide) (by decide),
   (phone_validation_cases "123").1 (by decide),
   (phone_validation_cases "12345abcde").2.1 (by decide) (by decide)⟩

/-- A phone lookup fails exactly when no stored phone has that value. -/
theorem check_phone_none_iff (phones : List String) (number : String) :
    check_phone_is_found phones number = none ↔ number ∉ phones := by
  induction phones with
  | nil => simp [check_phone_is_found]
  | cons p t ih =>
    by_cases hp : p = number
    · simp [check_phone_is_found, hp]
    · simp only [check_phone_is_found, List.findIdx?_cons] at ih ⊢
      simp [hp, ih, Ne.symm hp]

/-- C5: `edit_phone` fails with the `KeyError` lookup kind exactly when
no stored phone equals the old value; when one does (first match at
index `i`) and the new value validates, it overwrites slot `i` and
returns the success message; an invalid new value surfaces as a
validation kind, which is a different constructor from the lookup
kind. -/
theorem edit_phone_cases (r : PRecord) (oldp newp : String) :
    (oldp ∉ r.phones → edit_phone r oldp newp = .error .keyError) ∧
    (∀ i, check_phone_is_found r.phones oldp = some i →
      (∀ p, makePhone newp = .ok p →
        edit_phone r oldp newp =
          .ok ({ r with phones := r.phones.set i p },
               "Contact was changed successfully")) ∧
      (∀ e, makePhone newp = .error e →
        edit_phone r oldp newp = .error (.validation e))) ∧
    (∀ e, EditErr.keyError ≠ EditErr.validation e) := by
  refine ⟨fun h => ?_, fun i hi => ⟨fun p hp => ?_, fun e he => ?_⟩,
    fun e he => by cases he⟩
  · have hn : check_phone_is_found r.phones oldp = none :=
      (check_phone_none_iff r.phones oldp).mpr h
    unfold edit_phone
    rw [hn]
  · unfold edit_phone
    rw [hi, hp]
  · unfold edit_phone
    rw [hi, he]

/-- Witness for `edit_phone_cases`: on a record holding just
"1111111111", editing an absent phone raises the lookup failure, and
editing "1111111111" to "2222222222" succeeds and replaces the entry. -/
theorem edit_phone_cases_witness :
    edit_phone ⟨"Anna", ["1111111111"], none⟩ "9999999999" "1111111111" =
      .error .keyError ∧
    edit_phone ⟨"Anna", ["1111111111"], none⟩ "1111111111" "2222222222" =
      .ok (⟨"Anna", ["2222222222"], none⟩, "Contact was changed successfully") := by
  constructor
  · exact (edit_phone_cases ⟨"Anna", ["1111111111"], none⟩ "9999999999"
      "1111111111").1 (by decide)
  · exact ((edit_phone_cases ⟨"Anna", ["1111111111"], none⟩ "1111111111"
      "2222222222").2.1 0 rfl).1 "2222222222" rfl

/-- C8: `delete` raises the not-found error exactly when no record is
stored under the name (it never returns a sentinel), and otherwise
removes that record's entry and returns the confirmation string. -/
theorem delete_spec (book : Book) (name : String) :
    (popKey book name = none → delete book name = .error ()) ∧
    (∀ rest, popKey book name = some rest →
      delete book name = .ok (rest, "Contact " ++ name ++ " was deleted!")) ∧
    (bookFind book name = none ↔ popKey book name = none) := by
  refine ⟨fun h => ?_, fun rest h => ?_, ?_⟩
  · unfold delete
    rw [h]
  · unfold delete
    rw [h]
  · induction book with
    | nil => simp [popKey, bookFind]
    | cons kv t ih =>
      obtain ⟨k, r⟩ := kv
      by_cases hk : k = name
      · simp [popKey, bookFind, hk]
      · simp [popKey, bookFind, hk, ih, Option.map_eq_none']

/-- `add_record` preserves the key invariant. -/
theorem keyInv_add : ∀ (book : Book) (c : PRecord),
    keyInv book → keyInv (add_record book c) := by
  intro book c
  induction book with
  | nil =>
    intro _ kv hkv
    simp only [add_record, List.mem_singleton] at hkv
    subst hkv
    rfl
  | cons p t ih =>
    intro h
    obtain ⟨k, v⟩ := p
    have ht : keyInv t := fun kv hkv => h kv (List.mem_cons_of_mem _ hkv)
    by_cases hk : k = c.name
    · simp only [add_record, if_pos hk]
      intro kv hkv
      rcases List.mem_cons.mp hkv with h1 | h2
      · subst h1
        exact hk.symm
      · exact ht kv h2
    · simp only [add_record, if_neg hk]
      intro kv hkv
      rcases List.mem_cons.mp hkv with h1 | h2
      · subst h1
        exact h (k, v) (List.mem_cons_self _ _)
      · exact ih ht kv h2

/-- A successful `pop` preserves the key invariant. -/
theorem keyInv_pop : ∀ (book : Book) (n : String) (rest : Book),
    popKey book n = some rest → keyInv book → keyInv rest := by
  intro book n
  induction book with
  | nil =>
    intro rest h
    simp [popKey] at h
  | cons p t ih =>
    intro rest hp h
    obtain ⟨k, v⟩ := p
    have ht : keyInv t := fun kv hkv => h kv (List.mem_cons_of_mem _ hkv)
    by_cases hk : k = n
    · simp only [popKey, if_pos hk, Option.some.injEq] at hp
      subst hp
      exact ht
    · simp only [popKey, if_neg hk, Option.map_eq_some'] at hp
      obtain ⟨b, hb, rfl⟩ := hp
      intro kv hkv
      rcases List.mem_cons.mp hkv with h1 | h2
      · subst h1
        exact h (k, v) (List.mem_cons_self _ _)
      · exact ih b hb ht kv h2

/-- Every program operation preserves the key invariant. -/
theorem keyInv_applyOp (book : Book) (op : BookOp) (h : keyInv book) :
    keyInv (applyOp book op) := by
  cases op with
  | add r => exact keyInv_add book r h
  | del n =>
    rcases hp : popKey book n with _ | rest
    · simpa [applyOp, delete, hp] using h
    · simpa [applyOp, delete, hp] using keyInv_pop book n rest hp h

/-- The key invariant holds along any fold of operations. -/
theorem keyInv_foldl : ∀ (ops : List BookOp) (b : Book),
    keyInv b → keyInv (ops.foldl applyOp b) := by
  intro ops
  induction ops with
  | nil =>
    intro b h
    simpa using h
  | cons op t ih =>
    intro b h
    simpa using ih (applyOp b op) (keyInv_applyOp b op h)

/-- C9: every book reachable from the empty book through the program's
operations stores each record under its own name, and `add_record`
inserts or overwrites exactly at the key equal to the record's name,
leaving every other key's binding unchanged. -/
theorem addressbook_key_invariant :
    (∀ ops : List BookOp, keyInv (runOps ops)) ∧
    (∀ (book : Book) (c : PRecord),
      bookFind (add_record book c) c.name = some c ∧
      ∀ k, k ≠ c.name → bookFind (add_record book c) k = bookFind book k) := by
  constructor
  · intro ops
    exact keyInv_foldl ops [] (fun kv hkv => by simp at hkv)
  · intro book c
    constructor
    · induction book with
      | nil => simp [add_record, bookFind]
      | cons p t ih =>
        obtain ⟨k, v⟩ := p
        by_cases hk : k = c.name
        · simp [add_record, bookFind, hk]
        · simp [add_record, bookFind, hk, ih]
    · intro k hk
      induction book with
      | nil =>
        simp [add_record, bookFind, Ne.symm hk]
      | cons p t ih =>
        obtain ⟨k0, v⟩ := p
        by_cases h0 : k0 = c.name
        · have hne : k0 ≠ k := by
            rw [h0]
            exact Ne.symm hk
          simp [add_record, bookFind, h0, hne, Ne.symm hk]
        · by_cases h1 : k0 = k
          · simp [add_record, bookFind, h0, h1, hk]
          · simp [add_record, bookFind, h0, h1, hk, ih]

/-- Witness for `addressbook_key_invariant` on a concrete operation
sequence and a concrete insertion. -/
theorem addressbook_key_invariant_witness :
    keyInv (runOps [BookOp.add ⟨"John", [], none⟩, BookOp.del "John"]) ∧
    bookFind (add_record [] ⟨"John", [], none⟩) "John" =
      some ⟨"John", [], none⟩ ∧
    bookFind (add_record [] ⟨"John", [], none⟩) "Anna" = bookFind [] "Anna" :=
  ⟨addressbook_key_invariant.1 _,
   (addressbook_key_invariant.2 [] ⟨"John", [], none⟩).1,
   (addressbook_key_invariant.2 [] ⟨"John", [], none⟩).2 "Anna" (by decide)⟩

/-- Witness for `delete_spec`: deleting "Ghost" from a book without it
errors; deleting "John" from a singleton book removes it. -/
theorem delete_spec_witness :
    delete [] "Ghost" = .error () ∧
    delete [("John", ⟨"John", [], none⟩)] "John" =
      .ok ([], "Contact John was deleted!") := by
  constructor
  · exact (delete_spec [] "Ghost").1 rfl
  · exact (delete_spec [("John", ⟨"John", [], none⟩)] "John").2.1 [] rfl

/-- Everything `takeWhile` keeps satisfies the predicate. -/
theorem all_of_takeWhile (p : Char → Bool) :
    ∀ l : List Char, (l.takeWhile p).all p = true := by
  intro l
  induction l with
  | nil => rfl
  | cons x t ih =>
    rw [List.takeWhile_cons]
    split
    · simp [*]
    · rfl

/-- On an all-satisfying list, `takeWhile` keeps everything and
`dropWhile` drops to nothing. -/
theorem takeWhile_of_all (p : Char → Bool) :
    ∀ l : List Char, l.all p = true → l.takeWhile p = l ∧ l.dropWhile p = [] := by
  intro l
  induction l with
  | nil => intro _; exact ⟨rfl, rfl⟩
  | cons x t ih =>
    intro h
    rw [List.all_cons, Bool.and_eq_true] at h
    have ht := ih h.2
    rw [List.takeWhile_cons, List.dropWhile_cons]
    constructor
    · simp [h.1, ht.1]
    · simp [h.1, ht.2]

/-- Splitting at the first failing element: on `a ++ c :: b` with `a`
all-satisfying and `c` failing, `takeWhile` returns `a` and `dropWhile`
returns `c :: b`. -/
theorem takeWhile_append_sep (p : Char → Bool) (c : Char) (hc : p c = false) :
    ∀ (a b : List Char), a.all p = true →
      (a ++ c :: b).takeWhile p = a ∧ (a ++ c :: b).dropWhile p = c :: b := by
  intro a
  induction a with
  | nil =>
    intro b _
    rw [List.nil_append, List.takeWhile_cons, List.dropWhile_cons]
    simp [hc]
  | cons x t ih =>
    intro b h
    rw [List.all_cons, Bool.and_eq_true] at h
    have ht := ih b h.2
    rw [List.cons_append, List.takeWhile_cons, List.dropWhile_cons]
    constructor
    · simp [h.1, ht.1]
    · simp [h.1, ht.2]

/-- C3 counterexample: single-digit day and month strings are accepted
by `Birthday` construction (CPython's `strptime` treats the leading zero
of `%d` and `%m` as optional), contradicting the claim that they must
fail. -/
theorem birthday_single_digit_accepted :
    parseBirthday "5.06.2024" = some ⟨2024, 6, 5⟩ ∧
    parseBirthday "5.6.2024" = some ⟨2024, 6, 5⟩ := by
  decide

/-- C3 (amended): `Birthday` construction succeeds, storing year `y`,
month `m`, day `d`, exactly when the input decomposes as a one-or-two
digit day token with value `d` in 1..31, a dot, a one-or-two digit
month token with value `m` in 1..12, a dot, and a four-digit year token
with value `y`, with `(y, m, d)` a real calendar date; every other
format (e.g. "05/06/2024") and every invalid calendar date (e.g.
31.02.2024) fails with the date-format error. -/
theorem birthday_format_amended (s : String) (y m d : Nat) :
    parseBirthday s = some ⟨y, m, d⟩ ↔
      ∃ dT mT yT : List Char,
        s.data = dT ++ '.' :: (mT ++ '.' :: yT) ∧
        dT.all Char.isDigit = true ∧ 1 ≤ dT.length ∧ dT.length ≤ 2 ∧
        natOfDigits dT = d ∧ 1 ≤ d ∧ d ≤ 31 ∧
        mT.all Char.isDigit = true ∧ 1 ≤ mT.length ∧ mT.length ≤ 2 ∧
        natOfDigits mT = m ∧ 1 ≤ m ∧ m ≤ 12 ∧
        yT.all Char.isDigit = true ∧ yT.length = 4 ∧ natOfDigits yT = y ∧
        isValidDate y m d = true := by
  have hdot : Char.isDigit '.' = false := rfl
  constructor
  · intro h
    unfold parseBirthday at h
    rcases hr1 : s.data.dropWhile Char.isDigit with _ | ⟨c1, r2⟩
    · simp [hr1] at h
    · simp only [hr1] at h
      by_cases hc1 : c1 = '.'
      · rw [if_pos hc1] at h
        rcases hr2 : r2.dropWhile Char.isDigit with _ | ⟨c2, r4⟩
        · simp [hr2] at h
        · simp only [hr2] at h
          by_cases hc2 : c2 = '.'
          · rw [if_pos hc2] at h
            split at h
            · rename_i hcnd
              obtain ⟨hrest, hd1, hd2, hdlo, hdhi, hm1, hm2, hmlo, hmhi,
                hylen, hvalid⟩ := hcnd
              simp only [Option.some.injEq, DDate.mk.injEq] at h
              obtain ⟨hy, hm, hd⟩ := h
              refine ⟨s.data.takeWhile Char.isDigit, r2.takeWhile Char.isDigit,
                r4.takeWhile Char.isDigit, ?_, all_of_takeWhile _ _, hd1, hd2,
                hd, hd ▸ hdlo, hd ▸ hdhi, all_of_takeWhile _ _, hm1, hm2,
                hm, hm ▸ hmlo, hm ▸ hmhi, all_of_takeWhile _ _, hylen,
                hy, hy ▸ hm ▸ hd ▸ hvalid⟩
              have e1 := List.takeWhile_append_dropWhile Char.isDigit s.data
              have e2 := List.takeWhile_append_dropWhile Char.isDigit r2
              have e3 := List.takeWhile_append_dropWhile Char.isDigit r4
              rw [hr1, hc1] at e1
              rw [hr2, hc2] at e2
              rw [hrest, List.append_nil] at e3
              rw [e3, e2, e1]
            · cases h
          · rw [if_neg hc2] at h
            cases h
      · rw [if_neg hc1] at h
        cases h
  · rintro ⟨dT, mT, yT, hs, hdall, hd1, hd2, hdval, hdlo, hdhi, hmall, hm1,
      hm2, hmval, hmlo, hmhi, hyall, hylen, hyval, hvalid⟩
    unfold parseBirthday
    rw [hs]
    have h1 := takeWhile_append_sep Char.isDigit '.' hdot dT (mT ++ '.' :: yT) hdall
    have h2 := takeWhile_append_sep Char.isDigit '.' hdot mT yT hmall
    have h3 := takeWhile_of_all Char.isDigit yT hyall
    simp [h1.1, h1.2, h2.1, h2.2, h3.1, h3.2, hdval, hmval, hyval, hd1, hd2,
      hdlo, hdhi, hm1, hm2, hmlo, hmhi, hylen, hvalid]

/-- Witness for `birthday_format_amended`: "05.06.2024" parses to
June 5th, 2024. -/
theorem birthday_format_amended_witness :
    parseBirthday "05.06.2024" = some ⟨2024, 6, 5⟩ :=
  (birthday_format_amended "05.06.2024" 2024 6 5).mpr
    ⟨['0', '5'], ['0', '6'], ['2', '0', '2', '4'], by decide⟩
